import Mathlib

/-!
Shallow embedding of the resilient paginated fetch core of the
python-api-examples repository (pagination.py and request.py): URL query
handling, the two stacked tenacity retry rules around each fetch, the
Guardian pagination iterator, the TfL stop-point decoding and parsing, and
the rolling-window rate limiter.  Machine-level effects (the HTTP
transport, JSON decoding, the credential values, the haversine routine)
are abstracted as explicit function parameters; the control flow and data
handling are translated from the source.
-/

/-- A URL value as used through yarl: a base (scheme, host and path) plus
an ordered query mapping.  yarl URLs are immutable and `update_query`
returns a new URL value, so the embedding is a pure function on `Url`. -/
structure Url where
  base : String
  query : List (String × String)
deriving DecidableEq

/-- Set one query parameter: overwrite an existing key in place, append a
fresh key at the end (yarl `update_query` per-key behaviour). -/
def setQueryParam (q : List (String × String)) (k v : String) : List (String × String) :=
  if q.any (fun p => decide (p.1 = k)) then
    q.map (fun p => if p.1 = k then (k, v) else p)
  else q ++ [(k, v)]

/-- yarl `URL.update_query`: merge the given pairs into the query mapping,
returning a new URL value and leaving the receiver unchanged. -/
def updateQuery (u : Url) (ps : List (String × String)) : Url :=
  { u with query := ps.foldl (fun q kv => setQueryParam q kv.1 kv.2) u.query }

/-- yarl `URL / segment` path join. -/
def pathSeg (u : Url) (s : String) : Url :=
  { u with base := u.base ++ "/" ++ s }

/-- The Python exception kinds that can cross the fetch layers of the two
modules: requests transport failures (requests.exceptions.RequestException),
the ratelimit package's RateLimitException, an HTTP-status error, a json
decoding failure (json.JSONDecodeError, a ValueError and not a transport
error), a pydantic validation failure, any other exception, and tenacity's
RetryError raised when a retry rule reaches its stop condition (it carries
the last underlying error). -/
inductive PyErr where
  | requestException
  | rateLimitException
  | httpError
  | jsonDecodeError
  | validationError
  | otherError
  | retryError (last : PyErr)
deriving DecidableEq

/-- One tenacity retry decorator: a predicate on the raised error kind, a
wait strategy (attempt number to wait duration) and a stop condition over
the attempt number and the waiting time elapsed so far. -/
structure RetryRule where
  retriesOn : PyErr → Bool
  wait : Nat → Nat
  stop : Nat → Nat → Bool

/-- tenacity wait_exponential(min=mn, max=mx): a doubling wait clamped
into the band [mn, mx]. -/
def waitExponential (mn mx n : Nat) : Nat := min mx (max mn (2 ^ n))

/-- Outer rule of call_get in pagination.py:
retry_if_exception_type(requests.exceptions.RequestException),
wait_exponential(max=60, min=1), stop_after_attempt(3). -/
def guardianOuterRule : RetryRule where
  retriesOn := fun e => decide (e = PyErr.requestException)
  wait := waitExponential 1 60
  stop := fun n _ => decide (3 ≤ n)

/-- Outer rule of call_get in request.py: no retry predicate is given, so
tenacity's default applies and every exception kind is retried;
wait_exponential(max=60, min=1), stop_after_attempt(3). -/
def tflOuterRule : RetryRule where
  retriesOn := fun _ => true
  wait := waitExponential 1 60
  stop := fun n _ => decide (3 ≤ n)

/-- Inner rule of both call_get functions:
retry_if_exception_type(RateLimitException), wait_fixed(1),
stop_after_delay(60). -/
def rateLimitRule : RetryRule where
  retriesOn := fun e => decide (e = PyErr.rateLimitException)
  wait := fun _ => 1
  stop := fun _ elapsed => decide (60 ≤ elapsed)

/-- One tenacity retry loop over an operation whose successive invocation
outcomes are `op start, op (start + 1), ...`; `n` invocations have already
happened in this run and `elapsed` waiting time has accumulated.  A failure
whose kind the rule does not match propagates unchanged; on a matching
failure the stop condition is consulted (RetryError on stop, otherwise wait
and re-invoke).  Returns the final outcome together with the number of
invocations of this run, or `none` when the explicit fuel is too small. -/
def retryRun (rule : RetryRule) (op : Nat → Except PyErr α) :
    Nat → Nat → Nat → Nat → Option (Except PyErr α × Nat)
  | 0, _, _, _ => none
  | fuel+1, start, n, elapsed =>
    match op (start + n) with
    | .ok a => some (.ok a, n + 1)
    | .error e =>
      if rule.retriesOn e then
        if rule.stop (n + 1) elapsed then some (.error (.retryError e), n + 1)
        else retryRun rule op fuel start (n + 1) (elapsed + rule.wait (n + 1))
      else some (.error e, n + 1)

/-- The two stacked retry decorators around call_get: each outer attempt
runs the whole inner rule's loop afresh; the outer rule inspects the error
the inner loop let through and either re-runs the inner loop (after its
own wait, under its own stop condition) or lets the error propagate.
Returns the final outcome and the total number of underlying invocations,
or `none` when a fuel is too small. -/
def twoLayerRun (outer inner : RetryRule) (op : Nat → Except PyErr α) (fuelI : Nat) :
    Nat → Nat → Nat → Nat → Option (Except PyErr α × Nat)
  | 0, _, _, _ => none
  | fuelO+1, start, m, elapsed =>
    match retryRun inner op fuelI start 0 0 with
    | none => none
    | some (.ok a, c) => some (.ok a, c)
    | some (.error e, c) =>
      if outer.retriesOn e then
        if outer.stop (m + 1) elapsed then some (.error (.retryError e), c)
        else
          match twoLayerRun outer inner op fuelI fuelO (start + c) (m + 1)
              (elapsed + outer.wait (m + 1)) with
          | none => none
          | some (r, c2) => some (r, c + c2)
      else some (.error e, c)

/-- The retry behaviour of call_get in pagination.py: the transport rule
stacked outside the rate-limit rule, starting at the first invocation. -/
def guardianCallGetRun (op : Nat → Except PyErr α) (fuelI fuelO : Nat) :
    Option (Except PyErr α × Nat) :=
  twoLayerRun guardianOuterRule rateLimitRule op fuelI fuelO 0 0 0

/-- The retry behaviour of call_get in request.py: the predicate-free
outer rule stacked outside the rate-limit rule. -/
def tflCallGetRun (op : Nat → Except PyErr α) (fuelI fuelO : Nat) :
    Option (Except PyErr α × Nat) :=
  twoLayerRun tflOuterRule rateLimitRule op fuelI fuelO 0 0 0

/-- One parsed Guardian response envelope: the list
result["response"].get("results", []) and the page count
result["response"]["pages"]. -/
structure Envelope (α : Type) where
  results : List α
  pages : Nat
deriving DecidableEq

namespace Guardian

/-- The URL actually requested by call_get in pagination.py: the caller's
URL with the api-key credential merged into the query, built by
url.update_query and leaving the caller's URL value untouched. -/
def requestUrl (apiKey : String) (url : Url) : Url :=
  updateQuery url [("api-key", apiKey)]

/-- call_get in pagination.py on the success path: inject the API key and
run the transport, obtaining the parsed envelope.  The transport
(requests.get plus Response.json plus envelope field access) is an
explicit parameter. -/
def call_get (transport : Url → Envelope α) (apiKey : String) (url : Url) : Envelope α :=
  transport (requestUrl apiKey url)

/-- The per-page URL built by iter_call_get:
url.update_query({"page_size": page_size, "page": page}). -/
def pageUrl (url : Url) (pageSize page : Nat) : Url :=
  updateQuery url [("page_size", toString pageSize), ("page", toString page)]

/-- iter_call_get in pagination.py: starting from the given page, fetch
one page, yield its results, stop when the page counter equals the
reported "pages" value, otherwise move to the next page.  Returns the
yielded items in order together with the number of fetches, or `none`
when the loop does not finish within `fuel` steps (the source loop is
unbounded: `for page in itertools.count(1)`). -/
def iter_call_get (transport : Url → Envelope α) (apiKey : String) (url : Url)
    (pageSize : Nat) : Nat → Nat → Option (List α × Nat)
  | 0, _ => none
  | fuel+1, page =>
    let e := call_get transport apiKey (pageUrl url pageSize page)
    if page = e.pages then some (e.results, 1)
    else
      match iter_call_get transport apiKey url pageSize fuel (page + 1) with
      | none => none
      | some (items, n) => some (e.results ++ items, n + 1)

/-- The in-order concatenation of the results of `count` consecutive
pages starting at `page`, each fetched the way iter_call_get fetches
them. -/
def pagesConcat (transport : Url → Envelope α) (apiKey : String) (url : Url)
    (pageSize : Nat) : Nat → Nat → List α
  | _, 0 => []
  | page, count+1 =>
    (call_get transport apiKey (pageUrl url pageSize page)).results ++
      pagesConcat transport apiKey url pageSize (page + 1) count

end Guardian

namespace Tfl

/-- get_id_key in request.py: the credential query pairs. -/
def get_id_key (appId appKey : String) : List (String × String) :=
  [("app_id", appId), ("app_key", appKey)]

/-- The URL actually requested by call_get in request.py: the caller's
URL with the app_id/app_key credentials merged into the query, built by
url.update_query and leaving the caller's URL value untouched. -/
def requestUrl (appId appKey : String) (url : Url) : Url :=
  updateQuery url (get_id_key appId appKey)

/-- call_get in request.py on the success path: inject app_id and app_key
and run the transport, obtaining the raw response text. -/
def call_get (transport : Url → String) (appId appKey : String) (url : Url) : String :=
  transport (requestUrl appId appKey url)

def API_ENDPOINT : Url := ⟨"https://api.tfl.gov.uk", []⟩

/-- One element of the /Line/line_id/StopPoints response, restricted to
the fields parse_result reads: commonName, lat, lon and the ids of the
entries of the "lines" list (missing "lines" decodes to the empty
list, matching result.get("lines", [])). -/
structure StopRecord where
  commonName : String
  lat : Rat
  lon : Rat
  lineIds : List String
deriving DecidableEq

/-- The centre of London, (51.509865, -0.118092). -/
def centreOfLondon : Rat × Rat := (51509865 / 1000000, -118092 / 1000000)

/-- The validated record produced for one stop point. -/
structure LineStopPointInfo where
  name : String
  distance : Rat
  connections : Int
deriving DecidableEq

/-- pydantic validation of LineStopPointInfo: confloat(ge=0) on distance
and conint(ge=0) on connections; a violated bound raises a validation
error instead of producing a value. -/
def mkLineStopPointInfo (name : String) (distance : Rat) (connections : Int) :
    Except PyErr LineStopPointInfo :=
  if 0 ≤ distance ∧ 0 ≤ connections then .ok ⟨name, distance, connections⟩
  else .error .validationError

/-- parse_result in request.py: name from commonName, distance computed
by haversine from the centre of London (haversine is an external numeric
routine, passed as a parameter), connections = (number of entries of
"lines" whose id is a known tube line id) - 1, computed in Int because
the Python subtraction can go below zero. -/
def parse_result (tubeIds : List String) (hav : Rat × Rat → Rat × Rat → Rat)
    (r : StopRecord) : Except PyErr LineStopPointInfo :=
  mkLineStopPointInfo r.commonName (hav centreOfLondon (r.lat, r.lon))
    (((r.lineIds.filter (fun i => decide (i ∈ tubeIds))).length : Int) - 1)

/-- The URL of the stop-point listing: API_ENDPOINT / "Line" / line_id /
"StopPoints". -/
def stopPointsUrl (lineId : String) : Url :=
  pathSeg (pathSeg (pathSeg API_ENDPOINT "Line") lineId) "StopPoints"

/-- The list comprehension of line_stop_points: parse_result applied to
every element of the decoded array, left to right, the first failure
propagating. -/
def parseAll (tubeIds : List String) (hav : Rat × Rat → Rat × Rat → Rat) :
    List StopRecord → Except PyErr (List LineStopPointInfo)
  | [] => .ok []
  | r :: rs =>
    match parse_result tubeIds hav r with
    | .error e => .error e
    | .ok v =>
      match parseAll tubeIds hav rs with
      | .error e => .error e
      | .ok vs => .ok (v :: vs)

/-- line_stop_points in request.py: one call_get on the StopPoints
endpoint, json.loads of the body (json decoding of the flat array is
abstracted as `decode`; a malformed body fails with a json decode error
and nothing retries it), then parse_result applied to every element of
the array in order.  The second component counts the call_get
invocations made. -/
def line_stop_points (transport : Url → String) (appId appKey : String)
    (decode : String → Option (List StopRecord)) (tubeIds : List String)
    (hav : Rat × Rat → Rat × Rat → Rat) (lineId : String) :
    Except PyErr (List LineStopPointInfo) × Nat :=
  let body := call_get transport appId appKey (stopPointsUrl lineId)
  (match decode body with
   | none => .error .jsonDecodeError
   | some rs => parseAll tubeIds hav rs, 1)

end Tfl

/-- The rate-limit configuration `(maxCalls, windowDuration)` attached to
a fetch: limits(calls=12, period=1) in pagination.py and
limits(calls=500, period=60) in request.py. -/
structure RateWindow where
  maxCalls : Nat
  windowDuration : Nat

def guardianRateWindow : RateWindow := ⟨12, 1⟩

def tflRateWindow : RateWindow := ⟨500, 60⟩

/-- The recorded grant timestamps still inside the rolling window at time
`now`: a timestamp `t` is live while `now < t + win`. -/
def liveAt (win now : Nat) (ts : List Nat) : List Nat :=
  ts.filter (fun t => decide (now < t + win))

/-- The minimum of a list of timestamps, `none` on the empty list. -/
def minOf : List Nat → Option Nat
  | [] => none
  | t :: ts =>
    match minOf ts with
    | none => some t
    | some m => some (if t ≤ m then t else m)

/-- Outcome of one acquire attempt: a permit together with the new
timestamp ledger, or a suspension for the given duration. -/
inductive AcquireOutcome where
  | granted (newTs : List Nat)
  | sleep (d : Nat)
deriving DecidableEq

/-- Modelled from the spec: the rolling-window rate limiter standing
behind the `limits(calls=12, period=1)` and `limits(calls=500, period=60)`
decorators; the limiter's implementation lives in the external ratelimit
package and is not under src, so its contract is taken from the design:
on acquire, discard the recorded timestamps older than the window
duration; if fewer than maxCalls remain, grant immediately and record a
new timestamp; otherwise suspend the caller until the oldest remaining
timestamp exits the window. -/
def acquire (mc win now : Nat) (ts : List Nat) : AcquireOutcome :=
  let live := liveAt win now ts
  if live.length < mc then .granted (now :: live)
  else
    match minOf live with
    | none => .sleep win
    | some oldest => .sleep (oldest + win - now)

/-- A trace of acquire attempts at the given clock times (each suspended
caller's wake-up is a later attempt in the list): returns the times at
which a permit was granted, threading the pruned timestamp ledger the way
`acquire` maintains it. -/
def runAcquires (mc win : Nat) (ts : List Nat) : List Nat → List Nat
  | [] => []
  | now :: rest =>
    match acquire mc win now ts with
    | .granted ts2 => now :: runAcquires mc win ts2 rest
    | .sleep _ => runAcquires mc win ts rest

/-- The same acquire decisions taken against the full grant history
(newest first) instead of the pruned ledger; used to relate the pruned
ledger to the set of all past grants. -/
def runAcquiresFull (mc win : Nat) (hist : List Nat) : List Nat → List Nat
  | [] => []
  | now :: rest =>
    if (liveAt win now hist).length < mc
    then now :: runAcquiresFull mc win (now :: hist) rest
    else runAcquiresFull mc win hist rest

/-- Membership of a timestamp in the half-open rolling window (a, a+win]. -/
def inWindow (win a g : Nat) : Bool := decide (a < g) && decide (g ≤ a + win)

theorem length_filter_mono (l : List Nat) (p q : Nat → Bool)
    (h : ∀ t ∈ l, p t = true → q t = true) :
    (l.filter p).length ≤ (l.filter q).length := by
  induction l with
  | nil => simp
  | cons a l ih =>
    have ih2 := ih (fun t ht => h t (List.mem_cons_of_mem a ht))
    cases hpa : p a with
    | true =>
      have hqa : q a = true := h a (by simp) hpa
      simp only [List.filter_cons, hpa, hqa, if_true, List.length_cons]
      omega
    | false =>
      cases hqa : q a with
      | true =>
        simp only [List.filter_cons, hpa, hqa, if_true, Bool.false_eq_true, if_false,
          List.length_cons]
        omega
      | false =>
        simp only [List.filter_cons, hpa, hqa, Bool.false_eq_true, if_false]
        omega

theorem window_bound_cons (mc win now : Nat) (hist : List Nat)
    (hlive : (liveAt win now hist).length < mc) (a : Nat)
    (hh : (hist.filter (inWindow win a)).length ≤ mc) :
    ((now :: hist).filter (inWindow win a)).length ≤ mc := by
  cases hin : inWindow win a now with
  | false =>
    simp only [List.filter_cons, hin, Bool.false_eq_true, if_false]
    omega
  | true =>
    have h1 : a < now ∧ now ≤ a + win := by simpa [inWindow] using hin
    have hmono : (hist.filter (inWindow win a)).length ≤ (liveAt win now hist).length := by
      unfold liveAt
      apply length_filter_mono
      intro t ht hw
      have h2 : a < t ∧ t ≤ a + win := by simpa [inWindow] using hw
      exact decide_eq_true (by omega)
    simp only [List.filter_cons, hin, if_true, List.length_cons]
    omega

theorem runAcquiresFull_window_bound (mc win : Nat) :
    ∀ (reqs hist : List Nat),
    (∀ a, (hist.filter (inWindow win a)).length ≤ mc) →
    ∀ a, ((runAcquiresFull mc win hist reqs).filter (inWindow win a)).length
        + (hist.filter (inWindow win a)).length ≤ mc := by
  intro reqs
  induction reqs with
  | nil =>
    intro hist hh a
    simpa [runAcquiresFull] using hh a
  | cons now rest ih =>
    intro hist hh a
    by_cases hg : (liveAt win now hist).length < mc
    · have hh2 : ∀ b, ((now :: hist).filter (inWindow win b)).length ≤ mc :=
        fun b => window_bound_cons mc win now hist hg b (hh b)
      have hih := ih (now :: hist) hh2 a
      rw [show runAcquiresFull mc win hist (now :: rest)
          = now :: runAcquiresFull mc win (now :: hist) rest from by
        simp [runAcquiresFull, hg]]
      cases hin : inWindow win a now with
      | true =>
        simp only [List.filter_cons, hin, if_true, List.length_cons] at hih ⊢
        omega
      | false =>
        simp only [List.filter_cons, hin, Bool.false_eq_true, if_false] at hih ⊢
        omega
    · have hih := ih hist hh a
      rw [show runAcquiresFull mc win hist (now :: rest)
          = runAcquiresFull mc win hist rest from by simp [runAcquiresFull, hg]]
      exact hih

theorem liveAt_liveAt (win now m : Nat) (h : now ≤ m) (l : List Nat) :
    liveAt win m (liveAt win now l) = liveAt win m l := by
  unfold liveAt
  rw [List.filter_filter]
  apply List.filter_congr
  intro t ht
  cases hq : decide (m < t + win) with
  | false => simp
  | true =>
    have h1 : m < t + win := of_decide_eq_true hq
    have h2 : decide (now < t + win) = true := decide_eq_true (by omega)
    simp [h2]

theorem runAcquires_cons_grant (mc win now : Nat) (ts rest : List Nat)
    (hg : (liveAt win now ts).length < mc) :
    runAcquires mc win ts (now :: rest)
      = now :: runAcquires mc win (now :: liveAt win now ts) rest := by
  simp [runAcquires, acquire, hg]

theorem runAcquires_cons_sleep (mc win now : Nat) (ts rest : List Nat)
    (hg : ¬ (liveAt win now ts).length < mc) :
    runAcquires mc win ts (now :: rest) = runAcquires mc win ts rest := by
  cases hmin : minOf (liveAt win now ts) with
  | none => simp [runAcquires, acquire, hg, hmin]
  | some oldest => simp [runAcquires, acquire, hg, hmin]

theorem runAcquires_eq_full (mc win : Nat) :
    ∀ (reqs ts hist : List Nat),
    List.Pairwise (· ≤ ·) reqs →
    (∀ m ∈ reqs, liveAt win m ts = liveAt win m hist) →
    runAcquires mc win ts reqs = runAcquiresFull mc win hist reqs := by
  intro reqs
  induction reqs with
  | nil => intro ts hist _ _; rfl
  | cons now rest ih =>
    intro ts hist hp heq
    rw [List.pairwise_cons] at hp
    have hnow : liveAt win now ts = liveAt win now hist := heq now (by simp)
    by_cases hg : (liveAt win now hist).length < mc
    · have hgts : (liveAt win now ts).length < mc := by rw [hnow]; exact hg
      rw [runAcquires_cons_grant mc win now ts rest hgts]
      rw [show runAcquiresFull mc win hist (now :: rest)
          = now :: runAcquiresFull mc win (now :: hist) rest from by
        simp [runAcquiresFull, hg]]
      congr 1
      apply ih (now :: liveAt win now ts) (now :: hist) hp.2
      intro m hm
      have hnm : now ≤ m := hp.1 m hm
      have htail : liveAt win m (liveAt win now ts) = liveAt win m hist :=
        (liveAt_liveAt win now m hnm ts).trans (heq m (List.mem_cons_of_mem now hm))
      show liveAt win m (now :: liveAt win now ts) = liveAt win m (now :: hist)
      unfold liveAt
      unfold liveAt at htail
      rw [List.filter_cons, List.filter_cons, htail]
    · have hgts : ¬ (liveAt win now ts).length < mc := by rw [hnow]; exact hg
      rw [runAcquires_cons_sleep mc win now ts rest hgts]
      rw [show runAcquiresFull mc win hist (now :: rest)
          = runAcquiresFull mc win hist rest from by simp [runAcquiresFull, hg]]
      exact ih ts hist hp.2 (fun m hm => heq m (List.mem_cons_of_mem now hm))

theorem minOf_eq_none : ∀ (l : List Nat), minOf l = none → l = []
  | [], _ => rfl
  | t :: ts, h => by
    cases hm : minOf ts <;> simp [minOf, hm] at h

theorem minOf_isSome : ∀ (l : List Nat), l ≠ [] → ∃ m, minOf l = some m
  | [], h => absurd rfl h
  | t :: ts, _ => by
    cases hm : minOf ts with
    | none => exact ⟨t, by simp [minOf, hm]⟩
    | some m => exact ⟨if t ≤ m then t else m, by simp [minOf, hm]⟩

theorem minOf_le : ∀ (l : List Nat) (m : Nat), minOf l = some m → ∀ t ∈ l, m ≤ t := by
  intro l
  induction l with
  | nil => intro m hm t ht; simp at ht
  | cons a l ih =>
    intro m hm t ht
    cases hml : minOf l with
    | none =>
      have hl : l = [] := minOf_eq_none l hml
      subst hl
      simp [minOf] at hm
      simp at ht
      subst hm
      subst ht
      exact le_rfl
    | some m2 =>
      simp [minOf, hml] at hm
      simp at ht
      rcases ht with rfl | ht
      · rw [← hm]
        by_cases h2 : t ≤ m2
        · simp [h2]
        · simp [h2]
          omega
      · have hm2t : m2 ≤ t := ih m2 hml t ht
        rw [← hm]
        by_cases h2 : a ≤ m2
        · simp [h2]
          omega
        · simp [h2]
          omega

theorem minOf_mem : ∀ (l : List Nat) (m : Nat), minOf l = some m → m ∈ l := by
  intro l
  induction l with
  | nil => intro m hm; cases hm
  | cons a l ih =>
    intro m hm
    cases hml : minOf l with
    | none =>
      simp [minOf, hml] at hm
      subst hm
      simp
    | some m2 =>
      simp [minOf, hml] at hm
      subst hm
      by_cases h2 : a ≤ m2
      · rw [if_pos h2]
        simp
      · rw [if_neg h2]
        exact List.mem_cons_of_mem a (ih m2 hml)

theorem acquire_sleep_exact (mc win now : Nat) (ts : List Nat) (d : Nat)
    (hmc : 1 ≤ mc) (h : acquire mc win now ts = .sleep d) :
    mc ≤ (liveAt win now ts).length
    ∧ ∃ oldest, minOf (liveAt win now ts) = some oldest
        ∧ (∀ t ∈ liveAt win now ts, oldest ≤ t) ∧ now + d = oldest + win := by
  unfold acquire at h
  by_cases hg : (liveAt win now ts).length < mc
  · simp [hg] at h
  · refine ⟨by omega, ?_⟩
    have hne : liveAt win now ts ≠ [] := by
      intro hnil
      rw [hnil] at hg
      simp at hg
      omega
    obtain ⟨m, hm⟩ := minOf_isSome _ hne
    refine ⟨m, hm, minOf_le _ m hm, ?_⟩
    simp only [hg, if_false, hm] at h
    cases h
    have hmem := minOf_mem _ m hm
    have hlt : now < m + win := by
      unfold liveAt at hmem
      rw [List.mem_filter] at hmem
      exact of_decide_eq_true hmem.2
    omega

/-- C6: (the rate limiter is modelled from the design contract: the
ratelimit package's implementation is not under src, only the decorator
configurations limits(calls=12, period=1) and limits(calls=500,
period=60) are) for any nondecreasing sequence of acquire attempt times,
no rolling window (a, a + windowDuration] ever contains more than
maxCalls granted permits; and an acquire that finds the window full
suspends for exactly the time until the oldest live timestamp exits the
window, instead of failing. -/
theorem rate_limiter_window_bound (mc win : Nat) :
    (∀ reqs : List Nat, List.Pairwise (· ≤ ·) reqs →
      ∀ a, ((runAcquires mc win [] reqs).filter (inWindow win a)).length ≤ mc)
    ∧ (∀ now ts d, 1 ≤ mc → acquire mc win now ts = .sleep d →
        mc ≤ (liveAt win now ts).length
        ∧ ∃ oldest, minOf (liveAt win now ts) = some oldest
            ∧ (∀ t ∈ liveAt win now ts, oldest ≤ t) ∧ now + d = oldest + win) := by
  constructor
  · intro reqs hp a
    have heq : runAcquires mc win [] reqs = runAcquiresFull mc win [] reqs :=
      runAcquires_eq_full mc win reqs [] [] hp (fun m hm => rfl)
    rw [heq]
    have hb := runAcquiresFull_window_bound mc win reqs [] (fun b => by simp) a
    simpa using hb
  · intro now ts d hmc h
    exact acquire_sleep_exact mc win now ts d hmc h

theorem rate_limiter_window_bound_witness :
    ((runAcquires (guardianRateWindow.maxCalls) (guardianRateWindow.windowDuration)
      [] [0, 0, 1]).filter (inWindow (guardianRateWindow.windowDuration) 0)).length
      ≤ guardianRateWindow.maxCalls :=
  (rate_limiter_window_bound 12 1).1 [0, 0, 1] (by decide) 0

theorem any_key_eq_false (q : List (String × String)) (k : String)
    (h : ∀ p ∈ q, p.1 ≠ k) :
    q.any (fun p => decide (p.1 = k)) = false := by
  induction q with
  | nil => rfl
  | cons a q ih =>
    simp only [List.any_cons, Bool.or_eq_false_iff]
    constructor
    · simpa using h a (by simp)
    · exact ih (fun p hp => h p (List.mem_cons_of_mem a hp))

theorem setQueryParam_fresh (q : List (String × String)) (k v : String)
    (h : ∀ p ∈ q, p.1 ≠ k) :
    setQueryParam q k v = q ++ [(k, v)] := by
  simp [setQueryParam, any_key_eq_false q k h]

theorem setQueryParam_keeps_absent (q : List (String × String)) (k k2 v : String)
    (hne : k2 ≠ k) (h : ∀ p ∈ q, p.1 ≠ k) :
    ∀ p ∈ setQueryParam q k2 v, p.1 ≠ k := by
  intro p hp
  unfold setQueryParam at hp
  split at hp
  · rw [List.mem_map] at hp
    obtain ⟨p0, hp0, rfl⟩ := hp
    by_cases h2 : p0.1 = k2
    · simpa [h2] using hne
    · simpa [h2] using h p0 hp0
  · rw [List.mem_append] at hp
    rcases hp with hp | hp
    · exact h p hp
    · simp only [List.mem_singleton] at hp
      subst hp
      exact hne

/-- C8: both modules' call_get functions inject their credentials into
the query of a freshly derived URL value — URLs are immutable values
whose update operations return new values, so the caller's original URL
is left untouched by the fetch and never carries a credential parameter.
For pagination.py: the URL actually requested contains the api-key pair,
while the per-page URL the iterator derives from the caller's URL never
does.  For request.py: the URL actually requested is the caller's query
with the app_id and app_key pairs appended (so it contains both
credential pairs and the caller's query survives unchanged as its
prefix). -/
theorem credential_injection_frame (u u2 : Url) (apiKey appId appKey : String)
    (pageSize page : Nat)
    (h : ∀ p ∈ u.query, p.1 ≠ "api-key")
    (h2 : ∀ p ∈ u2.query, p.1 ≠ "app_id")
    (h3 : ∀ p ∈ u2.query, p.1 ≠ "app_key") :
    ("api-key", apiKey) ∈ (Guardian.requestUrl apiKey (Guardian.pageUrl u pageSize page)).query
    ∧ (∀ p ∈ (Guardian.pageUrl u pageSize page).query, p.1 ≠ "api-key")
    ∧ (Tfl.requestUrl appId appKey u2).query
        = u2.query ++ [("app_id", appId), ("app_key", appKey)]
    ∧ ("app_id", appId) ∈ (Tfl.requestUrl appId appKey u2).query
    ∧ ("app_key", appKey) ∈ (Tfl.requestUrl appId appKey u2).query := by
  have h1 : ∀ p ∈ (Guardian.pageUrl u pageSize page).query, p.1 ≠ "api-key" := by
    show ∀ p ∈ setQueryParam (setQueryParam u.query "page_size" (toString pageSize))
      "page" (toString page), p.1 ≠ "api-key"
    apply setQueryParam_keeps_absent _ _ _ _ (by decide)
    apply setQueryParam_keeps_absent _ _ _ _ (by decide) h
  have hguardian : ("api-key", apiKey)
      ∈ (Guardian.requestUrl apiKey (Guardian.pageUrl u pageSize page)).query := by
    show ("api-key", apiKey)
      ∈ setQueryParam (Guardian.pageUrl u pageSize page).query "api-key" apiKey
    rw [setQueryParam_fresh _ _ _ h1]
    simp
  have htfl : (Tfl.requestUrl appId appKey u2).query
      = u2.query ++ [("app_id", appId), ("app_key", appKey)] := by
    show setQueryParam (setQueryParam u2.query "app_id" appId) "app_key" appKey
      = u2.query ++ [("app_id", appId), ("app_key", appKey)]
    rw [setQueryParam_fresh _ _ _ h2]
    rw [setQueryParam_fresh]
    · simp
    · intro p hp
      rw [List.mem_append] at hp
      rcases hp with hp | hp
      · exact h3 p hp
      · simp only [List.mem_singleton] at hp
        subst hp
        simp
  refine ⟨hguardian, h1, htfl, ?_, ?_⟩
  · rw [htfl]
    simp
  · rw [htfl]
    simp

theorem credential_injection_frame_witness :
    ("api-key", "secret") ∈ (Guardian.requestUrl "secret"
      (Guardian.pageUrl ⟨"https://content.guardianapis.com/search", [("q", "debates")]⟩
        50 1)).query
    ∧ (Tfl.requestUrl "myid" "mykey" (Tfl.stopPointsUrl "victoria")).query
        = [("app_id", "myid"), ("app_key", "mykey")] := by
  have h := credential_injection_frame
    ⟨"https://content.guardianapis.com/search", [("q", "debates")]⟩
    (Tfl.stopPointsUrl "victoria") "secret" "myid" "mykey" 50 1
    (by decide) (by decide) (by decide)
  exact ⟨h.1, by simpa using h.2.2.1⟩

theorem parseAll_ok_length (tubeIds : List String) (hav : Rat × Rat → Rat × Rat → Rat) :
    ∀ (rs : List Tfl.StopRecord) (vs : List Tfl.LineStopPointInfo),
    Tfl.parseAll tubeIds hav rs = .ok vs → vs.length = rs.length := by
  intro rs
  induction rs with
  | nil =>
    intro vs h
    simp only [Tfl.parseAll] at h
    cases h
    rfl
  | cons r rs ih =>
    intro vs h
    rw [Tfl.parseAll] at h
    rcases hpr : Tfl.parse_result tubeIds hav r with e | v
    · rw [hpr] at h
      exact absurd h (by simp)
    · rw [hpr] at h
      rcases hrec : Tfl.parseAll tubeIds hav rs with e2 | ws
      · rw [hrec] at h
        exact absurd h (by simp)
      · rw [hrec] at h
        cases h
        simp [ih ws hrec]

/-- C2: a flat-array response with no pagination metadata is handled as a
single-page, single-fetch result: line_stop_points performs exactly one
fetch, parses exactly the decoded array's records in order (one output
per array element whenever every record validates), and the computation
then terminates. -/
theorem flat_array_single_fetch (transport : Url → String) (appId appKey : String)
    (decode : String → Option (List Tfl.StopRecord)) (tubeIds : List String)
    (hav : Rat × Rat → Rat × Rat → Rat) (lineId : String) (rs : List Tfl.StopRecord)
    (hdec : decode (Tfl.call_get transport appId appKey (Tfl.stopPointsUrl lineId)) = some rs) :
    Tfl.line_stop_points transport appId appKey decode tubeIds hav lineId
      = (Tfl.parseAll tubeIds hav rs, 1)
    ∧ ∀ vs, Tfl.parseAll tubeIds hav rs = .ok vs → vs.length = rs.length := by
  constructor
  · simp [Tfl.line_stop_points, hdec]
  · exact parseAll_ok_length tubeIds hav rs

theorem flat_array_single_fetch_witness :
    Tfl.line_stop_points (fun _ => "body") "id" "key"
      (fun _ => some [⟨"Stop", 1, 2, ["victoria"]⟩]) ["victoria"] (fun _ _ => 3) "victoria"
      = (Except.ok [⟨"Stop", 3, 0⟩], 1) := by
  have h := (flat_array_single_fetch (fun _ => "body") "id" "key"
    (fun _ => some [⟨"Stop", 1, 2, ["victoria"]⟩]) ["victoria"] (fun _ _ => 3) "victoria"
    [⟨"Stop", 1, 2, ["victoria"]⟩] rfl).1
  rw [h]
  rfl

/-- C10: every value parse_result returns satisfies the pydantic bounds
connections ≥ 0 and distance ≥ 0; a record none of whose line entries is
a known tube line id yields a computed connection count of -1, so
parse_result fails with a validation error instead of returning a
value. -/
theorem parse_result_validation (tubeIds : List String)
    (hav : Rat × Rat → Rat × Rat → Rat) (r : Tfl.StopRecord) :
    (∀ v, Tfl.parse_result tubeIds hav r = .ok v → 0 ≤ v.connections ∧ 0 ≤ v.distance)
    ∧ ((r.lineIds.filter (fun i => decide (i ∈ tubeIds))).length = 0 →
      Tfl.parse_result tubeIds hav r = .error .validationError) := by
  constructor
  · intro v hv
    unfold Tfl.parse_result Tfl.mkLineStopPointInfo at hv
    split at hv
    · rename_i hcond
      cases hv
      exact ⟨hcond.2, hcond.1⟩
    · exact absurd hv (by simp)
  · intro h0
    unfold Tfl.parse_result Tfl.mkLineStopPointInfo
    rw [h0]
    rw [if_neg]
    rintro ⟨-, h2⟩
    omega

theorem parse_result_validation_witness :
    Tfl.parse_result ["victoria"] (fun _ _ => 3) ⟨"Stop", 1, 2, []⟩
      = .error .validationError :=
  (parse_result_validation ["victoria"] (fun _ _ => 3) ⟨"Stop", 1, 2, []⟩).2 rfl

theorem retryRun_nomatch (rule : RetryRule) (op : Nat → Except PyErr α) (e : PyErr)
    (fuel start n elapsed : Nat) (hm : rule.retriesOn e = false)
    (hop : op (start + n) = .error e) :
    retryRun rule op (fuel + 1) start n elapsed = some (.error e, n + 1) := by
  simp [retryRun, hop, hm]

theorem twoLayerRun_nomatch (outer inner : RetryRule) (op : Nat → Except PyErr α)
    (e : PyErr) (fuelI fuelO start m elapsed : Nat)
    (ho : outer.retriesOn e = false) (hi : inner.retriesOn e = false)
    (hop : op start = .error e) :
    twoLayerRun outer inner op (fuelI + 1) (fuelO + 1) start m elapsed
      = some (.error e, 1) := by
  have h1 : retryRun inner op (fuelI + 1) start 0 0 = some (.error e, 1) :=
    retryRun_nomatch inner op e fuelI start 0 0 hi (by simpa using hop)
  simp [twoLayerRun, h1, ho]

/-- C3: an error whose kind no retry rule's predicate matches is never
retried: the stacked retry layers perform exactly one underlying
invocation and propagate that error unchanged to the caller. -/
theorem unmatched_error_propagates_immediately
    (outer inner : RetryRule) (op : Nat → Except PyErr α) (e : PyErr)
    (fuelI fuelO : Nat)
    (ho : outer.retriesOn e = false) (hi : inner.retriesOn e = false)
    (hop : op 0 = .error e) (hfI : 1 ≤ fuelI) (hfO : 1 ≤ fuelO) :
    twoLayerRun outer inner op fuelI fuelO 0 0 0 = some (.error e, 1) := by
  obtain ⟨fI, rfl⟩ : ∃ f, fuelI = f + 1 := ⟨fuelI - 1, by omega⟩
  obtain ⟨fO, rfl⟩ : ∃ f, fuelO = f + 1 := ⟨fuelO - 1, by omega⟩
  exact twoLayerRun_nomatch outer inner op e fI fO 0 0 0 ho hi hop

theorem unmatched_error_propagates_immediately_witness :
    guardianOuterRule.retriesOn PyErr.httpError = false
    ∧ rateLimitRule.retriesOn PyErr.httpError = false
    ∧ twoLayerRun guardianOuterRule rateLimitRule
        (fun _ => (Except.error PyErr.httpError : Except PyErr Nat)) 1 1 0 0 0
      = some (.error .httpError, 1) :=
  ⟨rfl, rfl,
    unmatched_error_propagates_immediately guardianOuterRule rateLimitRule
      (fun _ => .error .httpError) PyErr.httpError 1 1 rfl rfl rfl
      (by decide) (by decide)⟩

theorem retryRun_rateLimit_ok (op : Nat → Except PyErr α) (a : α) :
    ∀ (m fuel start n elapsed : Nat),
    (∀ k, k < m → op (start + n + k) = .error .rateLimitException) →
    op (start + n + m) = .ok a →
    elapsed + m ≤ 60 → m < fuel →
    retryRun rateLimitRule op fuel start n elapsed = some (.ok a, n + m + 1) := by
  intro m
  induction m with
  | zero =>
    intro fuel start n elapsed _ hok _ hfuel
    obtain ⟨f, rfl⟩ : ∃ f, fuel = f + 1 := ⟨fuel - 1, by omega⟩
    have hok2 : op (start + n) = .ok a := by simpa using hok
    simp [retryRun, hok2]
  | succ m ih =>
    intro fuel start n elapsed hfail hok helapsed hfuel
    obtain ⟨f, rfl⟩ : ∃ f, fuel = f + 1 := ⟨fuel - 1, by omega⟩
    have h0 : op (start + n) = .error .rateLimitException := by
      have := hfail 0 (by omega)
      simpa using this
    have hretr : rateLimitRule.retriesOn PyErr.rateLimitException = true := rfl
    have hwait : rateLimitRule.wait (n + 1) = 1 := rfl
    have hstop : rateLimitRule.stop (n + 1) elapsed = false := by
      show decide (60 ≤ elapsed) = false
      simp
      omega
    have hrec : retryRun rateLimitRule op f start (n + 1) (elapsed + 1)
        = some (.ok a, (n + 1) + m + 1) := by
      apply ih f start (n + 1) (elapsed + 1)
      · intro k hk
        have := hfail (k + 1) (by omega)
        rw [show start + (n + 1) + k = start + n + (k + 1) from by omega]
        exact this
      · rw [show start + (n + 1) + m = start + n + (m + 1) from by omega]
        exact hok
      · omega
      · omega
    have hstep : retryRun rateLimitRule op (f + 1) start n elapsed
        = retryRun rateLimitRule op f start (n + 1) (elapsed + 1) := by
      simp [retryRun, h0, hretr, hstop, hwait]
    rw [hstep, hrec]
    simp only [Option.some.injEq, Prod.mk.injEq]
    exact ⟨trivial, by omega⟩

/-- C4 counterexample: the outer rule of call_get in request.py has no
retry predicate, so it does not match only generic transient transport
failures: it also matches an error kind that is neither a transport
failure nor a rate-limit signal, and a fetch whose every attempt fails
with such a kind is retried to the full 3 outer attempts instead of
propagating on the first failure. -/
theorem tfl_outer_rule_matches_nontransport :
    tflOuterRule.retriesOn PyErr.otherError = true
    ∧ PyErr.otherError ≠ PyErr.requestException
    ∧ tflCallGetRun (fun _ => (Except.error PyErr.otherError : Except PyErr Nat)) 10 10
      = some (.error (.retryError .otherError), 3) :=
  ⟨rfl, by decide, by rfl⟩

/-- C4 (amended): every fetch is wrapped in exactly the two layered retry
rules found in the source: an outer rule with exponential backoff clamped
into [1, 60] time-units and a stop after 3 total attempts, and an inner
rule matching exactly the remote rate-limit error kind with fixed 1
time-unit backoff and a stop after 60 time-units of cumulative waiting
rather than an attempt count; a run of rate-limit failures is absorbed
entirely by the inner rule, without spending the outer 3-attempt budget.
The Guardian outer rule matches exactly the transport failure kind, while
the TfL outer rule carries no predicate and matches every error kind. -/
theorem retry_layering_amended :
    (∀ e, guardianOuterRule.retriesOn e = true ↔ e = PyErr.requestException)
    ∧ (∀ e, tflOuterRule.retriesOn e = true)
    ∧ (∀ n, 1 ≤ waitExponential 1 60 n ∧ waitExponential 1 60 n ≤ 60)
    ∧ guardianOuterRule.wait = waitExponential 1 60
    ∧ tflOuterRule.wait = waitExponential 1 60
    ∧ (∀ n elapsed, guardianOuterRule.stop n elapsed = decide (3 ≤ n))
    ∧ (∀ n elapsed, tflOuterRule.stop n elapsed = decide (3 ≤ n))
    ∧ (∀ e, rateLimitRule.retriesOn e = true ↔ e = PyErr.rateLimitException)
    ∧ (∀ n, rateLimitRule.wait n = 1)
    ∧ (∀ n elapsed, rateLimitRule.stop n elapsed = decide (60 ≤ elapsed))
    ∧ (∀ (outer : RetryRule) (op : Nat → Except PyErr Nat) (a m fuelI fuelO : Nat),
        (∀ k, k < m → op k = .error .rateLimitException) → op m = .ok a →
        m ≤ 60 → m < fuelI → 1 ≤ fuelO →
        twoLayerRun outer rateLimitRule op fuelI fuelO 0 0 0 = some (.ok a, m + 1)) := by
  refine ⟨?_, ?_, ?_, rfl, rfl, fun n e => rfl, fun n e => rfl, ?_, fun n => rfl,
    fun n e => rfl, ?_⟩
  · intro e
    constructor
    · intro h
      simpa [guardianOuterRule] using h
    · intro h; subst h; rfl
  · intro e; rfl
  · intro n
    unfold waitExponential
    omega
  · intro e
    constructor
    · intro h
      simpa [rateLimitRule] using h
    · intro h; subst h; rfl
  · intro outer op a m fuelI fuelO hfail hok hm hfI hfO
    obtain ⟨fO, rfl⟩ : ∃ f, fuelO = f + 1 := ⟨fuelO - 1, by omega⟩
    have hinner : retryRun rateLimitRule op fuelI 0 0 0 = some (.ok a, m + 1) := by
      have := retryRun_rateLimit_ok op a m fuelI 0 0 0
        (by intro k hk; simpa using hfail k hk) (by simpa using hok) (by omega) (by omega)
      simpa using this
    simp [twoLayerRun, hinner]

theorem retry_layering_amended_witness :
    twoLayerRun tflOuterRule rateLimitRule
      (fun k => if k < 5 then (Except.error PyErr.rateLimitException : Except PyErr Nat)
        else .ok 7) 10 1 0 0 0 = some (.ok 7, 6) :=
  retry_layering_amended.2.2.2.2.2.2.2.2.2.2 tflOuterRule _ 7 5 10 1
    (fun k hk => if_pos hk) rfl (by decide) (by decide) (by decide)

/-- C5: a malformed response body fails with a json decode error that no
retry rule matches: in pagination.py the decode happens inside call_get
and the decode failure propagates after a single invocation, while in
request.py the decode happens after call_get returned, so
line_stop_points surfaces the decode error with exactly one fetch
performed and no retry. -/
theorem decode_error_not_retried :
    (∀ (op : Nat → Except PyErr Nat) (fuelI fuelO : Nat),
      op 0 = .error .jsonDecodeError → 1 ≤ fuelI → 1 ≤ fuelO →
      guardianCallGetRun op fuelI fuelO = some (.error .jsonDecodeError, 1))
    ∧ (∀ transport appId appKey decode tubeIds hav lineId,
      decode (Tfl.call_get transport appId appKey (Tfl.stopPointsUrl lineId)) = none →
      Tfl.line_stop_points transport appId appKey decode tubeIds hav lineId
        = (.error .jsonDecodeError, 1)) := by
  constructor
  · intro op fuelI fuelO hop hfI hfO
    obtain ⟨fI, rfl⟩ : ∃ f, fuelI = f + 1 := ⟨fuelI - 1, by omega⟩
    obtain ⟨fO, rfl⟩ : ∃ f, fuelO = f + 1 := ⟨fuelO - 1, by omega⟩
    exact twoLayerRun_nomatch guardianOuterRule rateLimitRule op
      PyErr.jsonDecodeError fI fO 0 0 0 rfl rfl hop
  · intro transport appId appKey decode tubeIds hav lineId hdec
    simp [Tfl.line_stop_points, hdec]

theorem iter_call_get_pages (transport : Url → Envelope α) (apiKey : String)
    (url : Url) (pageSize P : Nat)
    (henv : ∀ k, 1 ≤ k → k ≤ P →
      (Guardian.call_get transport apiKey (Guardian.pageUrl url pageSize k)).pages = P) :
    ∀ (fuel p : Nat), 1 ≤ p → p ≤ P → P - p < fuel →
    Guardian.iter_call_get transport apiKey url pageSize fuel p
      = some (Guardian.pagesConcat transport apiKey url pageSize p (P + 1 - p), P + 1 - p) := by
  intro fuel
  induction fuel with
  | zero => intro p h1 h2 h3; omega
  | succ f ih =>
    intro p h1 h2 h3
    have hpg : (Guardian.call_get transport apiKey (Guardian.pageUrl url pageSize p)).pages = P :=
      henv p h1 h2
    by_cases hp : p = P
    · subst hp
      rw [show p + 1 - p = 1 from by omega]
      simp [Guardian.iter_call_get, Guardian.pagesConcat, hpg]
    · have hlt : p < P := by omega
      have hne : ¬ p = (Guardian.call_get transport apiKey (Guardian.pageUrl url pageSize p)).pages := by
        rw [hpg]; omega
      have hrec := ih (p + 1) (by omega) (by omega) (by omega)
      rw [show P + 1 - (p + 1) = P - p from by omega] at hrec
      rw [show P + 1 - p = (P - p) + 1 from by omega]
      simp only [Guardian.iter_call_get, Guardian.pagesConcat, hne, if_false, hrec]

/-- C1: for a paginated resource whose every envelope for pages 1..P
reports a page total of P, iter_call_get starts at page 1, performs
exactly P fetches, yields exactly the concatenation of the P pages'
items in strict page order and within-page envelope order, and
terminates successfully at the page whose counter equals the reported
total. -/
theorem guardian_pagination_complete (transport : Url → Envelope α) (apiKey : String)
    (url : Url) (pageSize P fuel : Nat) (hP : 1 ≤ P)
    (henv : ∀ k, 1 ≤ k → k ≤ P →
      (Guardian.call_get transport apiKey (Guardian.pageUrl url pageSize k)).pages = P)
    (hfuel : P ≤ fuel) :
    Guardian.iter_call_get transport apiKey url pageSize fuel 1
      = some (Guardian.pagesConcat transport apiKey url pageSize 1 P, P) := by
  have h := iter_call_get_pages transport apiKey url pageSize P henv fuel 1
    le_rfl hP (by omega)
  rw [show P + 1 - 1 = P from by omega] at h
  exact h

theorem guardian_pagination_complete_witness :
    Guardian.iter_call_get (fun _ => (⟨[10, 20], 1⟩ : Envelope Nat)) "key"
      ⟨"https://content.guardianapis.com/search", [("q", "debates")]⟩ 50 1 1
      = some ([10, 20], 1) := by
  have h := guardian_pagination_complete (fun _ => (⟨[10, 20], 1⟩ : Envelope Nat)) "key"
    ⟨"https://content.guardianapis.com/search", [("q", "debates")]⟩ 50 1 1 (by decide)
    (fun k h1 h2 => rfl) (by decide)
  simpa [Guardian.pagesConcat] using h

theorem iter_call_get_diverges (transport : Url → Envelope α) (apiKey : String)
    (url : Url) (pageSize : Nat)
    (h : ∀ p, 1 ≤ p →
      (Guardian.call_get transport apiKey (Guardian.pageUrl url pageSize p)).pages < p) :
    ∀ (fuel p : Nat), 1 ≤ p →
    Guardian.iter_call_get transport apiKey url pageSize fuel p = none := by
  intro fuel
  induction fuel with
  | zero => intro p hp; rfl
  | succ f ih =>
    intro p hp
    have hne : ¬ p = (Guardian.call_get transport apiKey (Guardian.pageUrl url pageSize p)).pages := by
      have := h p hp
      omega
    simp only [Guardian.iter_call_get, hne, if_false, ih (p + 1) (by omega)]

theorem iter_call_get_some_match (transport : Url → Envelope α) (apiKey : String)
    (url : Url) (pageSize : Nat) :
    ∀ (fuel p : Nat) (r : List α × Nat),
    Guardian.iter_call_get transport apiKey url pageSize fuel p = some r →
    ∃ k, p ≤ k ∧
      (Guardian.call_get transport apiKey (Guardian.pageUrl url pageSize k)).pages = k := by
  intro fuel
  induction fuel with
  | zero => intro p r hr; exact absurd hr (by simp [Guardian.iter_call_get])
  | succ f ih =>
    intro p r hr
    by_cases hp : p = (Guardian.call_get transport apiKey (Guardian.pageUrl url pageSize p)).pages
    · exact ⟨p, le_rfl, hp.symm⟩
    · rcases hrec : Guardian.iter_call_get transport apiKey url pageSize f (p + 1) with _ | s
      · rw [Guardian.iter_call_get] at hr
        simp only [hp, if_false, hrec] at hr
        exact absurd hr (by simp)
      · obtain ⟨k, hk1, hk2⟩ := ih (p + 1) s hrec
        exact ⟨k, by omega, hk2⟩

theorem iter_call_get_match_terminates (transport : Url → Envelope α) (apiKey : String)
    (url : Url) (pageSize : Nat) :
    ∀ (fuel p k : Nat), p ≤ k →
    (Guardian.call_get transport apiKey (Guardian.pageUrl url pageSize k)).pages = k →
    k + 1 - p ≤ fuel →
    ∃ r, Guardian.iter_call_get transport apiKey url pageSize fuel p = some r := by
  intro fuel
  induction fuel with
  | zero => intro p k hpk hk hfuel; omega
  | succ f ih =>
    intro p k hpk hk hfuel
    by_cases hp : p = (Guardian.call_get transport apiKey (Guardian.pageUrl url pageSize p)).pages
    · refine ⟨((Guardian.call_get transport apiKey (Guardian.pageUrl url pageSize p)).results, 1), ?_⟩
      simp only [Guardian.iter_call_get]
      rw [if_pos hp]
    · have hpk2 : p + 1 ≤ k := by
        by_cases heq : p = k
        · subst heq
          exact absurd hk.symm hp
        · omega
      obtain ⟨r, hr⟩ := ih (p + 1) k hpk2 hk (by omega)
      refine ⟨((Guardian.call_get transport apiKey (Guardian.pageUrl url pageSize p)).results ++ r.1, r.2 + 1), ?_⟩
      simp only [Guardian.iter_call_get, hp, if_false, hr]

/-- C9: iter_call_get terminates exactly when some fetched envelope
reports a pages value equal to the page counter at that step: when every
envelope reports pages strictly below the current counter (for example a
constant reported value of 0), the loop returns within no amount of fuel
and keeps fetching ever-increasing page numbers; any successful return
exhibits a step whose reported pages equalled the counter; and such a
step guarantees termination once the fuel covers it. -/
theorem iter_call_get_termination_iff (transport : Url → Envelope α) (apiKey : String)
    (url : Url) (pageSize : Nat) :
    ((∀ p, 1 ≤ p →
        (Guardian.call_get transport apiKey (Guardian.pageUrl url pageSize p)).pages < p) →
      ∀ fuel, Guardian.iter_call_get transport apiKey url pageSize fuel 1 = none)
    ∧ (∀ fuel (r : List α × Nat),
        Guardian.iter_call_get transport apiKey url pageSize fuel 1 = some r →
        ∃ k, 1 ≤ k ∧
          (Guardian.call_get transport apiKey (Guardian.pageUrl url pageSize k)).pages = k)
    ∧ (∀ k fuel, 1 ≤ k →
        (Guardian.call_get transport apiKey (Guardian.pageUrl url pageSize k)).pages = k →
        k ≤ fuel →
        ∃ r, Guardian.iter_call_get transport apiKey url pageSize fuel 1 = some r) := by
  refine ⟨?_, ?_, ?_⟩
  · intro h fuel
    exact iter_call_get_diverges transport apiKey url pageSize h fuel 1 le_rfl
  · intro fuel r hr
    obtain ⟨k, hk1, hk2⟩ := iter_call_get_some_match transport apiKey url pageSize fuel 1 r hr
    exact ⟨k, hk1, hk2⟩
  · intro k fuel hk1 hk2 hfuel
    exact iter_call_get_match_terminates transport apiKey url pageSize fuel 1 k hk1 hk2 (by omega)

theorem iter_call_get_termination_iff_witness :
    Guardian.iter_call_get (fun _ => (⟨[], 0⟩ : Envelope Nat)) "key"
      ⟨"https://content.guardianapis.com/search", []⟩ 50 7 1 = none
    ∧ ∃ r, Guardian.iter_call_get (fun _ => (⟨[5], 1⟩ : Envelope Nat)) "key"
      ⟨"https://content.guardianapis.com/search", []⟩ 50 3 1 = some r :=
  ⟨(iter_call_get_termination_iff (fun _ => (⟨[], 0⟩ : Envelope Nat)) "key"
      ⟨"https://content.guardianapis.com/search", []⟩ 50).1 (fun p hp => hp) 7,
   (iter_call_get_termination_iff (fun _ => (⟨[5], 1⟩ : Envelope Nat)) "key"
      ⟨"https://content.guardianapis.com/search", []⟩ 50).2.2 1 3 le_rfl rfl (by decide)⟩

theorem decode_error_not_retried_witness :
    guardianCallGetRun
        (fun _ => (Except.error PyErr.jsonDecodeError : Except PyErr Nat)) 1 1
      = some (.error .jsonDecodeError, 1)
    ∧ Tfl.line_stop_points (fun _ => "not json") "id" "key" (fun _ => none) []
        (fun _ _ => 0) "victoria"
      = (.error .jsonDecodeError, 1) :=
  ⟨decode_error_not_retried.1 _ 1 1 rfl (by decide) (by decide),
   decode_error_not_retried.2 _ "id" "key" _ [] _ "victoria" rfl⟩
